import Mathlib

set_option maxRecDepth 100000

/-!
Shallow embedding of the DHT11 driver (`dht11.c` / `dht11.h`) of the
STM32_F446Re repository, together with proofs about it.

Modelling conventions:

* Time is measured in microseconds as a `Nat`.  The GPIO data line is an
  environment oracle `pin : Nat → Bool` giving the level the MCU reads at
  each microsecond instant (`true` = high, `false` = low).
* Every observable action of the driver (pin-mode switches, pin writes,
  delays, the LED toggle, `printf` output) is logged in an event list, so
  ordering claims can be stated about the log.
* `delay_us(n)` advances model time by `n` microseconds (its cycle-accurate
  DWT busy-wait is embedded separately as `delay_us` below and proved to
  wait for `n * (SystemCoreClock / 1000000)` cycles).  `HAL_Delay(n)`
  advances time by `n * 1000` microseconds.
* Busy-poll loops that the C code bounds by a `timeout` counter are embedded
  with that same counter (`ackWait`).  The C code's *unbounded* `while`
  polls in `DHT11_ReadByte` are embedded with an explicit `fuel` bound and
  an `Option` result: `none` models the loop still spinning after `fuel`
  one-microsecond polls, so "the loop can hang" is stated as "`none` for
  every fuel".
* `MY_DEBUG` is `0` in `my_debug.h`, so all `DEBUG_*` macros are no-ops and
  are not modelled; only the real `printf` calls produce `print` events.
-/

/-- Observable actions performed by the driver, in program order. -/
inductive Ev : Type
  | setPinOutput : Ev
  | setPinInput : Ev
  | writePin (level : Bool) : Ev
  | delayMs (ms : Nat) : Ev
  | delayUs (us : Nat) : Ev
  | toggleLED : Ev
  | print (line : String) : Ev
deriving DecidableEq, BEq, Repr

/-- Model state threaded through the driver: current time in microseconds
and the log of events performed so far. -/
structure HWState : Type where
  t : Nat
  evs : List Ev
deriving DecidableEq, Repr

/-- Model of `delay_us(us)` at the transaction level: advance time by `us`
microseconds and log the delay. -/
def mDelayUs (us : Nat) (s : HWState) : HWState :=
  ⟨s.t + us, s.evs ++ [Ev.delayUs us]⟩

/-- Model of `HAL_Delay(ms)`: advance time by `ms` milliseconds and log. -/
def mHALDelay (ms : Nat) (s : HWState) : HWState :=
  ⟨s.t + ms * 1000, s.evs ++ [Ev.delayMs ms]⟩

/-- The low hold time of the start signal, milliseconds
(`HAL_Delay(18U)` in `DHT11_Start`). -/
def startLowHoldMs : Nat := 18

/-- The high release pulse of the start signal, microseconds
(`delay_us(30U)` in `DHT11_Start`). -/
def startReleasePulseUs : Nat := 30

/-- Embedding of `DHT11_Start`: set the pin to output, drive low, hold
18 ms, drive high, hold 30 us, set the pin to input.  The `DEBUG_*` calls
are no-ops (`MY_DEBUG = 0`) and `DHT11_SetPinOutput` / `DHT11_SetPinInput`
are embedded as their pin-mode events. -/
def DHT11_Start (s : HWState) : HWState :=
  let s1 : HWState := ⟨s.t, s.evs ++ [Ev.setPinOutput]⟩
  let s2 : HWState := ⟨s1.t, s1.evs ++ [Ev.writePin false]⟩
  let s3 := mHALDelay startLowHoldMs s2
  let s4 : HWState := ⟨s3.t, s3.evs ++ [Ev.writePin true]⟩
  let s5 := mDelayUs startReleasePulseUs s4
  ⟨s5.t, s5.evs ++ [Ev.setPinInput]⟩

/-- Embedding of the bounded poll `while (HAL_GPIO_ReadPin(..) && timeout--)
delay_us(1);` of `DHT11_CheckResponse`: read the line; exit if it is low or
the budget is spent; otherwise spend one 1-microsecond delay and poll
again.  (With the budget spent the C loop reads the line once more and
exits either way; a read does not change the state, so the budget-0 case
returns the state unchanged.) -/
def ackWait (pin : Nat → Bool) : Nat → HWState → HWState
  | 0, s => s
  | k + 1, s => if pin s.t = false then s else ackWait pin k (mDelayUs 1 s)

/-- Embedding of `DHT11_CheckResponse`: wait (bounded by 100 polls in
1-microsecond steps) for the line to go low; if it is low, delay 80
microseconds and sample — high means a valid response; then wait (again
bounded by 100 polls) for the ack high phase to end.  Returns the
`response` byte as a `Bool` together with the final state. -/
def DHT11_CheckResponse (pin : Nat → Bool) (s : HWState) : Bool × HWState :=
  let s1 := ackWait pin 100 s
  if pin s1.t = false then
    let s2 := mDelayUs 80 s1
    let resp := pin s2.t
    let s3 := ackWait pin 100 s2
    (resp, s3)
  else
    (false, ackWait pin 100 s1)

/-- Embedding of the *unbounded* polls `while (HAL_GPIO_ReadPin(..) ==
GPIO_PIN_RESET);` and `... == GPIO_PIN_SET);` of `DHT11_ReadByte`: spin
until the line reads `level`, one poll per microsecond of model time.
`fuel` bounds the modelled spinning: `none` means the C loop is still
spinning after `fuel` polls (the loop itself has no exit but the pin). -/
def waitPin (pin : Nat → Bool) (level : Bool) : Nat → HWState → Option HWState
  | 0, s => if pin s.t = level then some s else none
  | fuel + 1, s =>
    if pin s.t = level then some s
    else waitPin pin level fuel ⟨s.t + 1, s.evs⟩

/-- Loop body of `DHT11_ReadByte`, recursing on the number `k` of bits
still to read (the loop index is `i = 8 - k`, so the bit position
`7 - i` is `k - 1`): wait for the line to go high, delay 40 microseconds,
sample — if still high set bit `k-1` (`byte |= 1 << (7-i)`), else clear it
(`byte &= ~(1 << (7-i))`, a no-op as the bit is still 0) — then wait for
the line to fall low again. -/
def readByteAux (pin : Nat → Bool) (fuel : Nat) :
    Nat → Nat → HWState → Option (Nat × HWState)
  | 0, byte, s => some (byte, s)
  | k + 1, byte, s => do
    let s1 ← waitPin pin true fuel s
    let s2 := mDelayUs 40 s1
    let byte2 :=
      if pin s2.t = true then byte ||| (1 <<< k)
      else byte &&& (255 ^^^ (1 <<< k))
    let s3 ← waitPin pin false fuel s2
    readByteAux pin fuel k byte2 s3

/-- Embedding of `DHT11_ReadByte`: read 8 bits, most significant first,
starting from an all-zero byte. -/
def DHT11_ReadByte (pin : Nat → Bool) (fuel : Nat) (s : HWState) :
    Option (Nat × HWState) :=
  readByteAux pin fuel 8 0 s

/-- The line `printf` produces on a checksum-valid read, rendered: the
format string `"Humidity: %d.%d %% RH \t Temperature: %d.%d deg C\r\n"`
with the four data bytes substituted as decimal integers and `%%`
rendered as `%`. -/
def successLine (rh_int rh_dec t_int t_dec : Nat) : String :=
  "Humidity: " ++ toString rh_int ++ "." ++ toString rh_dec ++
    " % RH \t Temperature: " ++ toString t_int ++ "." ++ toString t_dec ++
    " deg C\r\n"

/-- The line `printf` produces on checksum failure, rendered. -/
def checksumErrorLine : String := "DHT11 checksum error\r\n"

/-- What one call of `ReadAndDisplayDHT11` hands to its caller/observer:
the emitted reading (the four data bytes printed on success — the spec's
`SensorReading` — or `none`), the `printf` lines, and whether the LED
was toggled. -/
structure Report : Type where
  reading : Option (Nat × Nat × Nat × Nat)
  printed : List String
  led : Bool
deriving DecidableEq, Repr

/-- Embedding of the validate-and-report tail of `ReadAndDisplayDHT11`
(the code from `if (checksum == (rh_int + rh_dec + t_int + t_dec))` to the
`else` branch).  The C comparison promotes the `uint8_t` operands to
`int`, so the right-hand side is the exact integer sum, not reduced
modulo 256.  On match: toggle the LED (`HAL_GPIO_TogglePin(GPIOA,
GPIO_PIN_5)`) and print the reading; on mismatch: print the fixed error
line and emit nothing. -/
def frameReport (rh_int rh_dec t_int t_dec checksum : Nat) (s : HWState) :
    Report × HWState :=
  if checksum = rh_int + rh_dec + t_int + t_dec then
    (⟨some (rh_int, rh_dec, t_int, t_dec),
      [successLine rh_int rh_dec t_int t_dec], true⟩,
     ⟨s.t, s.evs ++ [Ev.toggleLED,
       Ev.print (successLine rh_int rh_dec t_int t_dec)]⟩)
  else
    (⟨none, [checksumErrorLine], false⟩,
     ⟨s.t, s.evs ++ [Ev.print checksumErrorLine]⟩)

/-- Embedding of `ReadAndDisplayDHT11`: `HAL_Delay(1)`, start signal,
response check; on response read the five bytes, validate and report, and
`HAL_Delay(2000)`; on no response return at once (the 2-second delay is
inside the `if (DHT11_CheckResponse())` block in the C code).  `none`
models a run in which one of the unbounded `DHT11_ReadByte` polls is
still spinning after `fuel` polls. -/
def ReadAndDisplayDHT11 (pin : Nat → Bool) (fuel : Nat) :
    Option (Report × HWState) :=
  let s0 : HWState := ⟨0, []⟩
  let s1 := mHALDelay 1 s0
  let s2 := DHT11_Start s1
  match DHT11_CheckResponse pin s2 with
  | (true, sr) => do
    let (rh_int, s4) ← DHT11_ReadByte pin fuel sr
    let (rh_dec, s5) ← DHT11_ReadByte pin fuel s4
    let (t_int, s6) ← DHT11_ReadByte pin fuel s5
    let (t_dec, s7) ← DHT11_ReadByte pin fuel s6
    let (chk, s8) ← DHT11_ReadByte pin fuel s7
    let (rep, s9) := frameReport rh_int rh_dec t_int t_dec chk s8
    some (rep, mHALDelay 2000 s9)
  | (false, sr) => some (⟨none, [], false⟩, sr)

/-- Cycle-accurate embedding of `delay_us` from `dht11.c`: `cyclesPerUs`
is `SystemCoreClock / 1000000` in C integer division. -/
def cyclesPerUs (clk : Nat) : Nat := clk / 1000000

/-- The target tick count `us * (SystemCoreClock / 1000000)` computed in
`uint32_t` arithmetic. -/
def delayTicks (clk us : Nat) : Nat := (us * cyclesPerUs clk) % 2 ^ 32

/-- `uint32_t` wrap-around subtraction `DWT->CYCCNT - startTick` of two
32-bit counter readings. -/
def dwtElapsed (now start : Nat) : Nat :=
  (now % 2 ^ 32 + 2 ^ 32 - start % 2 ^ 32) % 2 ^ 32

/-- The busy-wait loop of `delay_us`: `cyc j` is the `DWT->CYCCNT` reading
of the `j`-th load (`cyc 0` is `startTick`); poll until the wrapped
difference reaches `delayTicks`.  `fuel` bounds the modelled spinning. -/
def dwtWait (clk : Nat) (cyc : Nat → Nat) (us : Nat) :
    Nat → Nat → Option Nat
  | n, 0 =>
    if delayTicks clk us ≤ dwtElapsed (cyc n) (cyc 0) then some n else none
  | n, f + 1 =>
    if delayTicks clk us ≤ dwtElapsed (cyc n) (cyc 0) then some n
    else dwtWait clk cyc us (n + 1) f

/-- Embedding of `delay_us(us)` over a cycle-counter trace `cyc`:
`startTick` is the load `cyc 0`; the `while` condition re-loads the
counter, so polling starts at load 1. -/
def delay_us (clk : Nat) (cyc : Nat → Nat) (us fuel : Nat) : Option Nat :=
  dwtWait clk cyc us 1 fuel

/-- A data line that always reads high — a disconnected sensor on a line
with an external pull-up. -/
def pinAlwaysHigh : Nat → Bool := fun _ => true

/-- A data line that always reads low — a line stuck at ground. -/
def pinAlwaysLow : Nat → Bool := fun _ => false

/-- Level of a piecewise-constant waveform given as a list of
`(level, duration)` segments, idling high (pull-up) after the last
segment. -/
def waveAt : List (Bool × Nat) → Nat → Bool
  | [], _ => true
  | (level, d) :: rest, u => if u < d then level else waveAt rest (u - d)

/-- The 8 bits of a byte, most significant first. -/
def byteBits (b : Nat) : List Bool :=
  (List.range 8).map fun i => b.testBit (7 - i)

/-- Test-harness waveform of a full DHT11 answer to the start signal:
80 us ack low, 80 us ack high, then for each of the 40 frame bits a 50 us
low gap followed by a high phase of 26 us (bit 0) or 70 us (bit 1), and a
final 50 us low before the line idles high. -/
def frameSegs (frame : List Nat) : List (Bool × Nat) :=
  (false, 80) :: (true, 80) ::
    (((frame.flatMap byteBits).flatMap fun b =>
      [(false, 50), (true, if b then 70 else 26)]) ++ [(false, 50)])

/-- Test-harness data line: idle high until the MCU releases the line
(19030 us of model time: 1000 + 18000 + 30), then play the frame
waveform. -/
def sensorPin (frame : List Nat) : Nat → Bool := fun u =>
  if u < 19030 then true else waveAt (frameSegs frame) (u - 19030)

/-- `lowFor pin t n` checks that the line reads low at every instant
`t, t+1, …, t+n-1`. -/
def lowFor (pin : Nat → Bool) (t n : Nat) : Bool :=
  (List.range n).all fun u => !pin (t + u)

/-- `highFor pin t n` checks that the line reads high at every instant
`t, t+1, …, t+n-1`. -/
def highFor (pin : Nat → Bool) (t n : Nat) : Bool :=
  (List.range n).all fun u => pin (t + u)

/-- `segMatchesB pin t ps` checks that, from instant `t` on, the line
plays the pulse train `ps`: each `(g, h)` is a low gap of `g ≥ 41`
microseconds followed by a high phase of `h ≥ 1` microseconds, and after
the last pulse the line stays low for at least 40 microseconds. -/
def segMatchesB (pin : Nat → Bool) : Nat → List (Nat × Nat) → Bool
  | t, [] => lowFor pin t 40
  | t, (g, h) :: rest =>
    decide (41 ≤ g) && decide (1 ≤ h) &&
      lowFor pin t g && highFor pin (t + g) h &&
      segMatchesB pin (t + g + h) rest

/-- Value of a bit string read most-significant-bit first. -/
def bitsVal (bs : List Bool) : Nat :=
  bs.foldl (fun a b => 2 * a + (if b then 1 else 0)) 0

/-- Boolean membership test on event logs. -/
def hasEv (e : Ev) (l : List Ev) : Bool :=
  l.any fun x => decide (x = e)

/-- Ack invitation pin used to exercise `DHT11_CheckResponse` on a healthy
handshake: high before instant 5, low on `[5, 85)`, high from 85 on. -/
def demoAckPin : Nat → Bool := fun u => !(decide (5 ≤ u) && decide (u < 85))

/-- Pulse train fed to `DHT11_ReadByte` in the bit-decoding witness:
gap/high durations for the 8 bits of the byte `10100010₂ = 162`. -/
def demoPulses : List (Nat × Nat) :=
  [(50, 70), (50, 26), (50, 70), (50, 26), (50, 26), (50, 26), (50, 70), (50, 26)]

/-- The data line playing `demoPulses` from instant 0, with a trailing
50-microsecond low before the idle-high. -/
def demoBitPin : Nat → Bool := fun u =>
  waveAt ((demoPulses.flatMap fun p => [(false, p.1), (true, p.2)]) ++ [(false, 50)]) u

theorem lowFor_iff (pin : Nat → Bool) (t n : Nat) :
    lowFor pin t n = true ↔ ∀ u, u < n → pin (t + u) = false := by
  simp [lowFor, List.all_eq_true, List.mem_range]

theorem highFor_iff (pin : Nat → Bool) (t n : Nat) :
    highFor pin t n = true ↔ ∀ u, u < n → pin (t + u) = true := by
  simp [highFor, List.all_eq_true, List.mem_range]

theorem hasEv_iff (e : Ev) (l : List Ev) :
    hasEv e l = true ↔ e ∈ l := by
  simp [hasEv, List.any_eq_true]

theorem waitPin_of_level {pin : Nat → Bool} {level : Bool} {s : HWState}
    (h : pin s.t = level) (fuel : Nat) : waitPin pin level fuel s = some s := by
  cases fuel <;> simp [waitPin, h]

theorem waitPin_spec {pin : Nat → Bool} {level : Bool} :
    ∀ (fuel : Nat) (s : HWState) (r : Nat), s.t ≤ r → r - s.t ≤ fuel →
      (∀ u, s.t ≤ u → u < r → pin u = !level) → pin r = level →
      waitPin pin level fuel s = some ⟨r, s.evs⟩ := by
  intro fuel
  induction fuel with
  | zero =>
    intro s r hle hfuel _ hr
    have : r = s.t := by omega
    subst this
    simp [waitPin, hr]
  | succ f ih =>
    intro s r hle hfuel hbefore hr
    by_cases hst : s.t = r
    · subst hst
      simp [waitPin, hr]
    · have hlt : s.t < r := by omega
      have hcur : pin s.t = !level := hbefore s.t le_rfl hlt
      have hne : pin s.t ≠ level := by
        rw [hcur]; cases level <;> simp
      rw [waitPin, if_neg hne]
      exact ih ⟨s.t + 1, s.evs⟩ r (by show s.t + 1 ≤ r; omega)
        (by show r - (s.t + 1) ≤ f; omega)
        (fun u hu hur => hbefore u (le_trans (Nat.le_succ s.t) hu) hur) hr

theorem waitPin_stuck (level : Bool) :
    ∀ (fuel : Nat) (s : HWState), waitPin (fun _ => !level) level fuel s = none := by
  intro fuel
  induction fuel with
  | zero => intro s; cases level <;> simp [waitPin]
  | succ f ih => intro s; cases level <;> simp [waitPin] <;> exact (by simpa using ih _)

theorem waitPin_some {pin : Nat → Bool} {level : Bool} :
    ∀ {fuel : Nat} {s s' : HWState}, waitPin pin level fuel s = some s' →
      s'.evs = s.evs ∧ s.t ≤ s'.t := by
  intro fuel
  induction fuel with
  | zero =>
    intro s s' h
    simp only [waitPin] at h
    split at h
    · cases h; exact ⟨rfl, le_rfl⟩
    · cases h
  | succ f ih =>
    intro s s' h
    simp only [waitPin] at h
    split at h
    · cases h; exact ⟨rfl, le_rfl⟩
    · obtain ⟨he, ht⟩ := ih h
      exact ⟨he, by simp at ht; omega⟩

theorem ackWait_t_ge (pin : Nat → Bool) :
    ∀ (n : Nat) (s : HWState), s.t ≤ (ackWait pin n s).t := by
  intro n
  induction n with
  | zero => intro s; exact le_rfl
  | succ k ih =>
    intro s
    rw [ackWait]
    split
    · exact le_rfl
    · have h := ih (mDelayUs 1 s)
      have e : (mDelayUs 1 s).t = s.t + 1 := rfl
      omega

theorem ackWait_t_le (pin : Nat → Bool) :
    ∀ (n : Nat) (s : HWState), (ackWait pin n s).t ≤ s.t + n := by
  intro n
  induction n with
  | zero => intro s; exact Nat.le_add_right _ _
  | succ k ih =>
    intro s
    rw [ackWait]
    split
    · omega
    · have h := ih (mDelayUs 1 s)
      have e : (mDelayUs 1 s).t = s.t + 1 := rfl
      omega

theorem ackWait_evs (pin : Nat → Bool) :
    ∀ (n : Nat) (s : HWState) (e : Ev), e ∈ (ackWait pin n s).evs →
      e ∈ s.evs ∨ e = Ev.delayUs 1 := by
  intro n
  induction n with
  | zero => intro s e he; exact Or.inl he
  | succ k ih =>
    intro s e he
    rw [ackWait] at he
    split at he
    · exact Or.inl he
    · rcases ih (mDelayUs 1 s) e he with h | h
      · have e2 : (mDelayUs 1 s).evs = s.evs ++ [Ev.delayUs 1] := rfl
        rw [e2, List.mem_append] at h
        rcases h with h | h
        · exact Or.inl h
        · simp at h
          exact Or.inr h
      · exact Or.inr h

theorem ackWait_before_high (pin : Nat → Bool) :
    ∀ (n : Nat) (s : HWState) (u : Nat), s.t ≤ u → u < (ackWait pin n s).t →
      pin u = true := by
  intro n
  induction n with
  | zero =>
    intro s u hu hlt
    have e : (ackWait pin 0 s).t = s.t := rfl
    omega
  | succ k ih =>
    intro s u hu hlt
    rw [ackWait] at hlt
    split at hlt
    · omega
    · rename_i hpin
      by_cases hus : u = s.t
      · cases h : pin s.t
        · exact absurd h hpin
        · rw [hus]; exact h
      · have hge : (mDelayUs 1 s).t ≤ u := by
          have e : (mDelayUs 1 s).t = s.t + 1 := rfl
          omega
        exact ih (mDelayUs 1 s) u hge hlt

set_option maxRecDepth 10000 in
theorem bit_facts : ∀ b, b < 256 → ∀ k, k < 8 → b % 2 ^ (k + 1) = 0 →
    (b ||| (1 <<< k) = b + 2 ^ k ∧ b &&& (255 ^^^ (1 <<< k)) = b ∧
     b + 2 ^ k < 256 ∧ (b + 2 ^ k) % 2 ^ k = 0 ∧ b % 2 ^ k = 0) := by decide

theorem bitsVal_foldl (bs : List Bool) :
    ∀ a : Nat, bs.foldl (fun a b => 2 * a + (if b then 1 else 0)) a =
      a * 2 ^ bs.length + bitsVal bs := by
  induction bs with
  | nil => intro a; simp [bitsVal]
  | cons c cs ih =>
    intro a
    have h1 := ih (2 * a + (if c then 1 else 0))
    have h2 := ih (if c then 1 else 0)
    simp only [List.foldl_cons, List.length_cons, bitsVal] at h1 h2 ⊢
    rw [h1]
    rw [show (2 * 0 + (if c then 1 else 0)) = (if c then 1 else 0) by omega, h2]
    ring

theorem bitsVal_cons (b : Bool) (bs : List Bool) :
    bitsVal (b :: bs) = (if b then 1 else 0) * 2 ^ bs.length + bitsVal bs := by
  have h := bitsVal_foldl bs (if b then 1 else 0)
  simp only [bitsVal, List.foldl_cons]
  rw [show (2 * 0 + (if b then 1 else 0)) = (if b then 1 else 0) by omega]
  exact h

theorem readByteAux_spec (pin : Nat → Bool) (fuel : Nat) :
    ∀ (ps : List (Nat × Nat)) (t tc byte : Nat) (E : List Ev),
      segMatchesB pin t ps = true →
      (∀ p ∈ ps, p.1 + 40 ≤ fuel ∧ p.2 ≤ fuel) →
      byte < 256 → byte % 2 ^ ps.length = 0 →
      ps.length ≤ 8 → t ≤ tc → tc ≤ t + 40 →
      (readByteAux pin fuel ps.length byte ⟨tc, E⟩).map Prod.fst =
        some (byte + bitsVal (ps.map fun p => decide (40 < p.2))) := by
  intro ps
  induction ps with
  | nil =>
    intro t tc byte E hm hf hb hmod hlen hge hle
    simp [readByteAux, bitsVal]
  | cons p rest ih =>
    obtain ⟨g, h⟩ := p
    intro t tc byte E hm hf hb hmod hlen hge hle
    rw [segMatchesB] at hm
    simp only [Bool.and_eq_true, decide_eq_true_eq] at hm
    obtain ⟨⟨⟨⟨hg41, hh1⟩, hlow⟩, hhigh⟩, hrest⟩ := hm
    rw [lowFor_iff] at hlow
    rw [highFor_iff] at hhigh
    have hfg : g + 40 ≤ fuel := (hf (g, h) (by simp)).1
    have hfh : h ≤ fuel := (hf (g, h) (by simp)).2
    have hfrest : ∀ p ∈ rest, p.1 + 40 ≤ fuel ∧ p.2 ≤ fuel :=
      fun p hp => hf p (by simp [hp])
    have hlen' : rest.length < 8 := by simp at hlen; omega
    have hmod' : byte % 2 ^ (rest.length + 1) = 0 := by
      simpa using hmod
    have facts := bit_facts byte hb rest.length hlen' hmod'
    -- the line stays low for at least 40 us after the high phase of this bit
    have hafter : ∀ d, d < 40 → pin (t + g + h + d) = false := by
      intro d hd
      cases rest with
      | nil =>
        rw [segMatchesB, lowFor_iff] at hrest
        exact hrest d hd
      | cons q rest2 =>
        obtain ⟨gq, hq⟩ := q
        rw [segMatchesB] at hrest
        simp only [Bool.and_eq_true, decide_eq_true_eq] at hrest
        obtain ⟨⟨⟨⟨hq41, _⟩, hqlow⟩, _⟩, _⟩ := hrest
        rw [lowFor_iff] at hqlow
        exact hqlow d (by omega)
    -- the first wait exits at the rising edge t + g
    have hw1 : waitPin pin true fuel ⟨tc, E⟩ = some ⟨t + g, E⟩ := by
      apply waitPin_spec fuel ⟨tc, E⟩ (t + g) (by show tc ≤ t + g; omega)
        (by show t + g - tc ≤ fuel; omega)
      · intro u hu hur
        have hd : u - t < g := by
          have : t ≤ u := le_trans hge hu
          omega
        have hlu := hlow (u - t) hd
        have e : t + (u - t) = u := by
          have : t ≤ u := le_trans hge hu
          omega
        rw [e] at hlu
        simpa using hlu
      · have := hhigh 0 (by omega)
        simpa using this
    -- the sample 40 us after the rising edge reads `decide (40 < h)`
    have hsample : pin (t + g + 40) = decide (40 < h) := by
      by_cases hbit : 40 < h
      · have := hhigh 40 hbit
        simp [hbit, this]
      · have hd : 40 - h < 40 := by omega
        have := hafter (40 - h) hd
        have e : t + g + h + (40 - h) = t + g + 40 := by omega
        rw [e] at this
        simp [hbit, this]
    simp only [List.length_cons]
    rw [readByteAux, hw1]
    simp only [Option.bind_eq_bind, Option.some_bind]
    have hs2 : mDelayUs 40 (⟨t + g, E⟩ : HWState) =
        ⟨t + g + 40, E ++ [Ev.delayUs 40]⟩ := rfl
    rw [hs2]
    by_cases hbit : 40 < h
    · -- bit 1: sample high, set the bit, wait for the falling edge at t+g+h
      have hsample' : pin (t + g + 40) = true := by simp [hsample, hbit]
      have hw3 : waitPin pin false fuel ⟨t + g + 40, E ++ [Ev.delayUs 40]⟩ =
          some ⟨t + g + h, E ++ [Ev.delayUs 40]⟩ := by
        apply waitPin_spec fuel _ (t + g + h) (by show t + g + 40 ≤ t + g + h; omega)
          (by show t + g + h - (t + g + 40) ≤ fuel; omega)
        · intro u hu hur
          have hu' : t + g + 40 ≤ u := hu
          have hd : u - (t + g) < h := by omega
          have hhu := hhigh (u - (t + g)) hd
          have e : t + g + (u - (t + g)) = u := by omega
          rw [e] at hhu
          simpa using hhu
        · exact hafter 0 (by omega)
      simp only [hsample', eq_self_iff_true, if_true, hw3,
        Option.bind_eq_bind, Option.some_bind]
      have hbyte : byte ||| (1 <<< rest.length) = byte + 2 ^ rest.length :=
        facts.1
      rw [hbyte]
      rw [ih (t + g + h) (t + g + h) (byte + 2 ^ rest.length)
        (E ++ [Ev.delayUs 40]) hrest hfrest facts.2.2.1 facts.2.2.2.1
        (by omega) le_rfl (by omega)]
      simp only [List.map_cons, bitsVal_cons, List.length_map]
      simp [hbit]
      omega
    · -- bit 0: sample low, keep the byte, the line is already low
      have hsample' : pin (t + g + 40) = false := by simp [hsample, hbit]
      have hw3 : waitPin pin false fuel ⟨t + g + 40, E ++ [Ev.delayUs 40]⟩ =
          some ⟨t + g + 40, E ++ [Ev.delayUs 40]⟩ :=
        waitPin_of_level hsample' fuel
      rw [if_neg (by simp [hsample'])]
      rw [hw3]
      simp only [Option.bind_eq_bind, Option.some_bind]
      have hbyte : byte &&& (255 ^^^ (1 <<< rest.length)) = byte := facts.2.1
      rw [hbyte]
      rw [ih (t + g + h) (t + g + 40) byte (E ++ [Ev.delayUs 40]) hrest hfrest
        hb facts.2.2.2.2 (by omega) (by omega) (by omega)]
      simp only [List.map_cons, bitsVal_cons, List.length_map]
      simp [hbit]

theorem start_state_eq :
    DHT11_Start (mHALDelay 1 ⟨0, []⟩) =
      ⟨19030, [Ev.delayMs 1, Ev.setPinOutput, Ev.writePin false,
        Ev.delayMs 18, Ev.writePin true, Ev.delayUs 30, Ev.setPinInput]⟩ := by
  decide

theorem checkResponse_evs (pin : Nat → Bool) (s : HWState) :
    ∀ e ∈ (DHT11_CheckResponse pin s).2.evs,
      e ∈ s.evs ∨ e = Ev.delayUs 1 ∨ e = Ev.delayUs 80 := by
  unfold DHT11_CheckResponse
  by_cases hp : pin (ackWait pin 100 s).t = false
  · simp only [hp, if_true, eq_self_iff_true]
    intro e he
    rcases ackWait_evs pin 100 _ e he with h | h
    · have e2 : (mDelayUs 80 (ackWait pin 100 s)).evs =
          (ackWait pin 100 s).evs ++ [Ev.delayUs 80] := rfl
      rw [e2, List.mem_append] at h
      rcases h with h | h
      · rcases ackWait_evs pin 100 _ e h with h2 | h2
        · exact Or.inl h2
        · exact Or.inr (Or.inl h2)
      · simp at h
        exact Or.inr (Or.inr h)
    · exact Or.inr (Or.inl h)
  · simp only [hp, if_false]
    intro e he
    rcases ackWait_evs pin 100 _ e he with h | h
    · rcases ackWait_evs pin 100 _ e h with h2 | h2
      · exact Or.inl h2
      · exact Or.inr (Or.inl h2)
    · exact Or.inr (Or.inl h)

theorem readByteAux_evs (pin : Nat → Bool) (fuel : Nat) :
    ∀ (k : Nat) (byte : Nat) (s : HWState) (b : Nat) (s' : HWState),
      readByteAux pin fuel k byte s = some (b, s') →
      ∀ e ∈ s'.evs, e ∈ s.evs ∨ e = Ev.delayUs 40 := by
  intro k
  induction k with
  | zero =>
    intro byte s b s' h e he
    simp only [readByteAux] at h
    cases h
    exact Or.inl he
  | succ k ih =>
    intro byte s b s' h e he
    rw [readByteAux] at h
    cases hw1 : waitPin pin true fuel s with
    | none => rw [hw1] at h; simp at h
    | some s1 =>
      rw [hw1] at h
      simp only [Option.bind_eq_bind, Option.some_bind] at h
      cases hw3 : waitPin pin false fuel (mDelayUs 40 s1) with
      | none => rw [hw3] at h; simp at h
      | some s3 =>
        rw [hw3] at h
        simp only [Option.bind_eq_bind, Option.some_bind] at h
        rcases ih _ _ _ _ h e he with h2 | h2
        · have e3 := (waitPin_some hw3).1
          have e1 := (waitPin_some hw1).1
          rw [e3] at h2
          have e2 : (mDelayUs 40 s1).evs = s1.evs ++ [Ev.delayUs 40] := rfl
          rw [e2, e1, List.mem_append] at h2
          rcases h2 with h2 | h2
          · exact Or.inl h2
          · simp at h2
            exact Or.inr h2
        · exact Or.inr h2

theorem readByte_keeps_no_toggle (pin : Nat → Bool) (fuel : Nat)
    {s : HWState} {b : Nat} {s' : HWState}
    (h : DHT11_ReadByte pin fuel s = some (b, s'))
    (hnt : Ev.toggleLED ∉ s.evs) : Ev.toggleLED ∉ s'.evs := by
  intro hm
  rcases readByteAux_evs pin fuel 8 0 s b s' h Ev.toggleLED hm with h2 | h2
  · exact hnt h2
  · simp at h2

/-- C2: for every bit, `DHT11_ReadByte` waits for the line to go high,
delays exactly 40 microseconds, samples once — the bit is 1 exactly when
the line is still high at that sample — then waits for the line to fall
low; the 8 bits are accumulated most-significant-bit first.  Stated over
any waveform playing a pulse train `ps` of 8 low-gap/high-phase pairs:
the byte read is the MSB-first value whose `i`-th bit is 1 iff the `i`-th
high phase is longer than the 40-microsecond discrimination window (so a
high phase over before the sample instant decodes to 0, and one still
high at it decodes to 1). -/
theorem DHT11_ReadByte_decodes_pulse_train :
    ∀ (pin : Nat → Bool) (t fuel : Nat) (E : List Ev) (ps : List (Nat × Nat)),
      segMatchesB pin t ps = true → ps.length = 8 →
      (∀ p ∈ ps, p.1 + 40 ≤ fuel ∧ p.2 ≤ fuel) →
      (DHT11_ReadByte pin fuel ⟨t, E⟩).map Prod.fst =
        some (bitsVal (ps.map fun p => decide (40 < p.2))) := by
  intro pin t fuel E ps hm hlen hf
  have h := readByteAux_spec pin fuel ps t t 0 E hm hf (by omega) (by simp)
    (by omega) le_rfl (by omega)
  rw [hlen] at h
  simpa [DHT11_ReadByte] using h

/-- Witness for C2: the pulse train `demoPulses` (high phases
70, 26, 70, 26, 26, 26, 70, 26 microseconds) decodes to
`10100010₂ = 162`. -/
theorem DHT11_ReadByte_decodes_pulse_train_witness :
    segMatchesB demoBitPin 0 demoPulses = true ∧
    (DHT11_ReadByte demoBitPin 100 ⟨0, []⟩).map Prod.fst = some 162 := by
  constructor
  · decide
  · have h := DHT11_ReadByte_decodes_pulse_train demoBitPin 0 100 [] demoPulses
      (by decide) (by decide) (by decide)
    rw [h]
    decide

/-- C4: `DHT11_CheckResponse` polls (in 1-microsecond steps, bounded by
the 100-poll budget) for the line to go low; its result is `true` exactly
when the line is low at the poll exit *and* high 80 microseconds later,
so "never went low" and "not high after 80 us" are collapsed into the
same single `false` ("no response") result; the poll exit lies within
the budget and every instant polled before it read high. -/
theorem DHT11_CheckResponse_ack_protocol :
    ∀ (pin : Nat → Bool) (s : HWState),
      (DHT11_CheckResponse pin s).1 =
        (!pin (ackWait pin 100 s).t && pin ((ackWait pin 100 s).t + 80)) ∧
      (ackWait pin 100 s).t ≤ s.t + 100 ∧
      (∀ u, s.t ≤ u → u < (ackWait pin 100 s).t → pin u = true) := by
  intro pin s
  refine ⟨?_, ackWait_t_le pin 100 s, ackWait_before_high pin 100 s⟩
  unfold DHT11_CheckResponse
  cases hp : pin (ackWait pin 100 s).t
  · simp [hp, mDelayUs]
  · simp [hp]

/-- Witness for C4: a line that goes low at instant 5 and back high at
instant 85 is accepted. -/
theorem DHT11_CheckResponse_ack_protocol_witness :
    (DHT11_CheckResponse demoAckPin ⟨0, []⟩).1 = true := by
  have h := (DHT11_CheckResponse_ack_protocol demoAckPin ⟨0, []⟩).1
  rw [h]
  decide

/-- C6: `DHT11_Start` performs, in this order: switch the pin to output,
drive the line low, hold it low for the 18-millisecond hold time, drive
the line high, hold the release pulse (30 microseconds, inside the
20-40 microsecond window), then switch the pin to input. -/
theorem start_signal_sequence :
    ∀ s : HWState,
      (DHT11_Start s).evs = s.evs ++ [Ev.setPinOutput, Ev.writePin false,
        Ev.delayMs startLowHoldMs, Ev.writePin true,
        Ev.delayUs startReleasePulseUs, Ev.setPinInput] ∧
      (DHT11_Start s).t = s.t + startLowHoldMs * 1000 + startReleasePulseUs ∧
      18 ≤ startLowHoldMs ∧ 20 ≤ startReleasePulseUs ∧
      startReleasePulseUs ≤ 40 := by
  intro s
  refine ⟨?_, rfl, by decide, by decide, by decide⟩
  simp [DHT11_Start, mHALDelay, mDelayUs]

/-- C7 (amended): the two polls that can spin forever are both in
`DHT11_ReadByte` — the per-bit wait for the line to go high (it returns
`none` at every fuel on a stuck-low line) and the per-bit wait for the
line to fall low (`none` at every fuel on a stuck-high line) — while
`DHT11_CheckResponse`, including its wait for the ack high phase to end,
is bounded by the 100-poll budgets and always returns within 280
microseconds of model time. -/
theorem unbounded_polls_located :
    (∀ (pin : Nat → Bool) (s : HWState),
      (DHT11_CheckResponse pin s).2.t ≤ s.t + 280) ∧
    (∀ (fuel : Nat) (s : HWState), waitPin pinAlwaysLow true fuel s = none) ∧
    (∀ (fuel : Nat) (s : HWState), waitPin pinAlwaysHigh false fuel s = none) := by
  refine ⟨?_, ?_, ?_⟩
  · intro pin s
    unfold DHT11_CheckResponse
    by_cases hp : pin (ackWait pin 100 s).t = false
    · simp only [hp, if_true, eq_self_iff_true]
      have h1 := ackWait_t_le pin 100 s
      have h2 := ackWait_t_le pin 100 (mDelayUs 80 (ackWait pin 100 s))
      have e : (mDelayUs 80 (ackWait pin 100 s)).t = (ackWait pin 100 s).t + 80 :=
        rfl
      omega
    · rw [if_neg hp]
      have h1 := ackWait_t_le pin 100 s
      have h2 := ackWait_t_le pin 100 (ackWait pin 100 s)
      show (ackWait pin 100 (ackWait pin 100 s)).t ≤ s.t + 280
      omega
  · intro fuel s
    exact waitPin_stuck true fuel s
  · intro fuel s
    exact waitPin_stuck false fuel s

/-- Counterexample to C7 as stated: with a disconnected sensor (line
constantly high) `DHT11_CheckResponse` — and in particular its wait for
the ack phase to end — does *not* loop forever: it returns `false` after
its two 100-poll budgets, 200 microseconds of model time; whereas the
per-bit wait for the line to *fall low* (a poll the claim says is
bounded) is still spinning after 1000 polls on the same line. -/
theorem unbounded_polls_claim_counterexample :
    (DHT11_CheckResponse pinAlwaysHigh ⟨0, []⟩).1 = false ∧
    (DHT11_CheckResponse pinAlwaysHigh ⟨0, []⟩).2.t = 200 ∧
    waitPin pinAlwaysHigh false 1000 ⟨0, []⟩ = none := by
  refine ⟨by decide, by decide, by decide⟩

/-- C5: if the line never reads low during the ack-wait budget (the 101
instants polled by the 100-poll wait), the whole cycle terminates in
failure — within 200 microseconds of poll budget after the start signal —
and emits nothing: no reading, no `printf` line, no print event, and no
bit-read (`delay_us(40)`) event, so no byte is read and no partial frame
is exposed. -/
theorem no_response_aborts_silently :
    ∀ (pin : Nat → Bool) (fuel : Nat),
      highFor pin 19030 101 = true →
      ∃ rep s, ReadAndDisplayDHT11 pin fuel = some (rep, s) ∧
        rep.reading = none ∧ rep.printed = [] ∧ rep.led = false ∧
        s.t ≤ 19230 ∧ (∀ m, Ev.print m ∉ s.evs) ∧ Ev.delayUs 40 ∉ s.evs := by
  intro pin fuel hh
  rw [highFor_iff] at hh
  have hge := ackWait_t_ge pin 100 (⟨19030, [Ev.delayMs 1, Ev.setPinOutput,
    Ev.writePin false, Ev.delayMs 18, Ev.writePin true, Ev.delayUs 30,
    Ev.setPinInput]⟩ : HWState)
  have hle := ackWait_t_le pin 100 (⟨19030, [Ev.delayMs 1, Ev.setPinOutput,
    Ev.writePin false, Ev.delayMs 18, Ev.writePin true, Ev.delayUs 30,
    Ev.setPinInput]⟩ : HWState)
  have e : (⟨19030, [Ev.delayMs 1, Ev.setPinOutput, Ev.writePin false,
    Ev.delayMs 18, Ev.writePin true, Ev.delayUs 30, Ev.setPinInput]⟩ :
    HWState).t = 19030 := rfl
  have hp : pin (ackWait pin 100 ⟨19030, [Ev.delayMs 1, Ev.setPinOutput,
      Ev.writePin false, Ev.delayMs 18, Ev.writePin true, Ev.delayUs 30,
      Ev.setPinInput]⟩).t = true := by
    have hd := hh ((ackWait pin 100 ⟨19030, [Ev.delayMs 1, Ev.setPinOutput,
      Ev.writePin false, Ev.delayMs 18, Ev.writePin true, Ev.delayUs 30,
      Ev.setPinInput]⟩).t - 19030) (by omega)
    have e2 : 19030 + ((ackWait pin 100 ⟨19030, [Ev.delayMs 1, Ev.setPinOutput,
      Ev.writePin false, Ev.delayMs 18, Ev.writePin true, Ev.delayUs 30,
      Ev.setPinInput]⟩).t - 19030) = (ackWait pin 100 ⟨19030, [Ev.delayMs 1,
      Ev.setPinOutput, Ev.writePin false, Ev.delayMs 18, Ev.writePin true,
      Ev.delayUs 30, Ev.setPinInput]⟩).t := by omega
    rw [e2] at hd
    exact hd
  have hCR : DHT11_CheckResponse pin ⟨19030, [Ev.delayMs 1, Ev.setPinOutput,
      Ev.writePin false, Ev.delayMs 18, Ev.writePin true, Ev.delayUs 30,
      Ev.setPinInput]⟩ = (false, ackWait pin 100 (ackWait pin 100 ⟨19030,
      [Ev.delayMs 1, Ev.setPinOutput, Ev.writePin false, Ev.delayMs 18,
      Ev.writePin true, Ev.delayUs 30, Ev.setPinInput]⟩)) := by
    unfold DHT11_CheckResponse
    rw [if_neg (by rw [hp]; simp)]
  refine ⟨⟨none, [], false⟩, ackWait pin 100 (ackWait pin 100 ⟨19030,
    [Ev.delayMs 1, Ev.setPinOutput, Ev.writePin false, Ev.delayMs 18,
    Ev.writePin true, Ev.delayUs 30, Ev.setPinInput]⟩), ?_, rfl, rfl, rfl,
    ?_, ?_, ?_⟩
  · simp only [ReadAndDisplayDHT11]
    rw [start_state_eq, hCR]
  · have h2 := ackWait_t_le pin 100 (ackWait pin 100 ⟨19030, [Ev.delayMs 1,
      Ev.setPinOutput, Ev.writePin false, Ev.delayMs 18, Ev.writePin true,
      Ev.delayUs 30, Ev.setPinInput]⟩)
    omega
  · intro m hm
    rcases ackWait_evs pin 100 _ _ hm with h | h
    · rcases ackWait_evs pin 100 _ _ h with h2 | h2
      · simp at h2
      · simp at h2
    · simp at h
  · intro hm
    rcases ackWait_evs pin 100 _ _ hm with h | h
    · rcases ackWait_evs pin 100 _ _ h with h2 | h2
      · simp at h2
      · simp at h2
    · simp at h

/-- Witness for C5: a constantly-high line (disconnected sensor). -/
theorem no_response_aborts_silently_witness :
    highFor pinAlwaysHigh 19030 101 = true ∧
    (∃ rep s, ReadAndDisplayDHT11 pinAlwaysHigh 0 = some (rep, s) ∧
      rep.reading = none ∧ rep.printed = [] ∧ rep.led = false ∧
      s.t ≤ 19230 ∧ (∀ m, Ev.print m ∉ s.evs) ∧ Ev.delayUs 40 ∉ s.evs) :=
  ⟨by decide, no_response_aborts_silently pinAlwaysHigh 0 (by decide)⟩

/-- C1 (amended): the validation step of `ReadAndDisplayDHT11` succeeds —
emits a reading, prints the success line — exactly when the fifth byte
equals the *exact* integer sum of the first four (the C comparison
promotes the bytes to `int`, so no reduction modulo 256 happens);
otherwise it prints the fixed checksum-error line and emits nothing.  For
frames whose data bytes sum to less than 256 this coincides with the
mod-256 rule; frames with a larger sum are always rejected. -/
theorem frameReport_success_iff_exact_sum :
    ∀ (b0 b1 b2 b3 b4 : Nat) (s : HWState),
      (frameReport b0 b1 b2 b3 b4 s).1.reading.isSome =
        decide (b4 = b0 + b1 + b2 + b3) ∧
      (frameReport b0 b1 b2 b3 b4 s).1.reading =
        (if b4 = b0 + b1 + b2 + b3 then some (b0, b1, b2, b3) else none) ∧
      (frameReport b0 b1 b2 b3 b4 s).1.printed =
        (if b4 = b0 + b1 + b2 + b3 then [successLine b0 b1 b2 b3]
         else [checksumErrorLine]) := by
  intro b0 b1 b2 b3 b4 s
  by_cases h : b4 = b0 + b1 + b2 + b3 <;> simp [frameReport, h]

/-- Counterexample to C1 as stated: the frame (200, 100, 0, 0, 44)
satisfies the claimed mod-256 rule (200+100+0+0 ≡ 44 mod 256), yet a full
`ReadAndDisplayDHT11` cycle receiving exactly this frame takes the
checksum-mismatch path: no reading, the error line, no LED toggle. -/
theorem checksum_mod256_claim_counterexample :
    (200 + 100 + 0 + 0) % 256 = 44 ∧
    (ReadAndDisplayDHT11 (sensorPin [200, 100, 0, 0, 44]) 200).map
      (fun p => (p.1.reading, p.1.printed, p.1.led)) =
      some (none, [checksumErrorLine], false) := by
  refine ⟨by decide, by decide⟩

/-- C9: on a checksum-valid read exactly one line is printed, the
rendered `printf` of `"Humidity: %d.%d %% RH \t Temperature: %d.%d deg
C\r\n"` with the four data bytes as decimal integers; on checksum failure
exactly the fixed line `"DHT11 checksum error"`.  (With `MY_DEBUG = 0`
the `DEBUG_*` macros print nothing.) -/
theorem printf_lines_exact :
    (∀ (b0 b1 b2 b3 b4 : Nat) (s : HWState),
      (frameReport b0 b1 b2 b3 b4 s).1.printed =
        (if b4 = b0 + b1 + b2 + b3 then [successLine b0 b1 b2 b3]
         else [checksumErrorLine]) ∧
      ((frameReport b0 b1 b2 b3 b4 s).1.printed).length = 1) ∧
    successLine 50 0 24 0 =
      "Humidity: 50.0 % RH \t Temperature: 24.0 deg C\r\n" ∧
    checksumErrorLine = "DHT11 checksum error\r\n" := by
  refine ⟨?_, rfl, rfl⟩
  intro b0 b1 b2 b3 b4 s
  by_cases h : b4 = b0 + b1 + b2 + b3 <;> simp [frameReport, h]

/-- C3 is a code bug: the 2-second cool-down (`HAL_Delay(2000)`) sits
inside the `if (DHT11_CheckResponse())` block, so on a protocol failure
(line constantly high — no sensor response) the cycle returns about 200
microseconds after the start signal with no `HAL_Delay(2000)` event at
all, while on a responding cycle the event is present. -/
theorem cooldown_skipped_on_no_response :
    (ReadAndDisplayDHT11 pinAlwaysHigh 0).map
      (fun p : Report × HWState =>
        (p.2.t, hasEv (Ev.delayMs 2000) p.2.evs)) =
      some (19230, false) ∧
    (ReadAndDisplayDHT11 (sensorPin [50, 0, 24, 0, 74]) 200).map
      (fun p : Report × HWState => hasEv (Ev.delayMs 2000) p.2.evs) =
      some true := by
  refine ⟨by decide, by decide⟩

theorem dwtWait_spec (clk : Nat) (cyc : Nat → Nat) (us : Nat) :
    ∀ (fuel n m : Nat), dwtWait clk cyc us n fuel = some m →
      delayTicks clk us ≤ dwtElapsed (cyc m) (cyc 0) ∧ n ≤ m ∧
      (∀ j, n ≤ j → j < m → dwtElapsed (cyc j) (cyc 0) < delayTicks clk us) := by
  intro fuel
  induction fuel with
  | zero =>
    intro n m h
    rw [dwtWait] at h
    split at h
    · rename_i hc
      cases h
      exact ⟨hc, le_rfl, fun j hj hjm => by omega⟩
    · cases h
  | succ f ih =>
    intro n m h
    rw [dwtWait] at h
    split at h
    · rename_i hc
      cases h
      exact ⟨hc, le_rfl, fun j hj hjm => by omega⟩
    · rename_i hc
      obtain ⟨ha, hb, hcl⟩ := ih (n + 1) m h
      refine ⟨ha, by omega, ?_⟩
      intro j hj hjm
      by_cases hjn : j = n
      · subst hjn
        omega
      · exact hcl j (by omega) hjm

/-- C8: when `delay_us` returns, the wrapped 32-bit difference between
the current and starting `DWT->CYCCNT` readings has reached the target
`us * (SystemCoreClock / 1000000)` tick count (computed in `uint32_t`
arithmetic), and it had not reached it at any earlier poll — the busy
wait spins until at least `us` microseconds worth of CPU cycles have
elapsed on the cycle counter. -/
theorem delay_us_busy_waits :
    ∀ (clk us fuel m : Nat) (cyc : Nat → Nat),
      delay_us clk cyc us fuel = some m →
      delayTicks clk us = us * (clk / 1000000) % 2 ^ 32 ∧
      delayTicks clk us ≤ dwtElapsed (cyc m) (cyc 0) ∧
      (∀ j, 1 ≤ j → j < m → dwtElapsed (cyc j) (cyc 0) < delayTicks clk us) := by
  intro clk us fuel m cyc h
  obtain ⟨ha, _, hc⟩ := dwtWait_spec clk cyc us fuel 1 m h
  exact ⟨rfl, ha, hc⟩

/-- Witness for C8: a 16 MHz core clock whose counter gains 16 cycles per
poll satisfies a 3-microsecond delay after exactly 3 polls (48 ticks). -/
theorem delay_us_busy_waits_witness :
    delay_us 16000000 (fun j => 16 * j) 3 10 = some 3 ∧
    delayTicks 16000000 3 ≤ dwtElapsed (16 * 3) 0 := by
  refine ⟨by decide, ?_⟩
  exact (delay_us_busy_waits 16000000 3 10 3 (fun j => 16 * j) (by decide)).2.1

/-- C10: in every terminating cycle the LED toggle and the emission of a
reading coincide — the report's `led` flag equals `reading.isSome`, and
whenever `led` is false (checksum mismatch or failed acknowledgment) no
`toggleLED` event is in the log at all; moreover the validation step sets
`led` exactly when the checksum comparison succeeds. -/
theorem led_toggle_iff_reading :
    (∀ (pin : Nat → Bool) (fuel : Nat),
      Option.all (fun p : Report × HWState =>
        (p.1.led == p.1.reading.isSome) &&
        (p.1.led || !(hasEv Ev.toggleLED p.2.evs)))
        (ReadAndDisplayDHT11 pin fuel) = true) ∧
    (∀ (b0 b1 b2 b3 b4 : Nat) (s : HWState),
      (frameReport b0 b1 b2 b3 b4 s).1.led =
        decide (b4 = b0 + b1 + b2 + b3)) := by
  constructor
  · intro pin fuel
    simp only [ReadAndDisplayDHT11]
    rw [start_state_eq]
    rcases hCR : DHT11_CheckResponse pin ⟨19030, [Ev.delayMs 1,
      Ev.setPinOutput, Ev.writePin false, Ev.delayMs 18, Ev.writePin true,
      Ev.delayUs 30, Ev.setPinInput]⟩ with ⟨resp, sr⟩
    have hntr : Ev.toggleLED ∉ sr.evs := by
      intro hm
      have hx := checkResponse_evs pin ⟨19030, [Ev.delayMs 1,
        Ev.setPinOutput, Ev.writePin false, Ev.delayMs 18, Ev.writePin true,
        Ev.delayUs 30, Ev.setPinInput]⟩ Ev.toggleLED
      rw [hCR] at hx
      rcases hx hm with h | h | h
      · simp at h
      · simp at h
      · simp at h
    cases resp
    · have hf : hasEv Ev.toggleLED sr.evs = false := by
        cases hx : hasEv Ev.toggleLED sr.evs
        · rfl
        · exact absurd ((hasEv_iff _ _).mp hx) hntr
      simp [Option.all, hf]
    · rcases h0 : DHT11_ReadByte pin fuel sr with _ | ⟨b0, s4⟩
      · simp [h0, Option.all]
      rcases h1 : DHT11_ReadByte pin fuel s4 with _ | ⟨b1, s5⟩
      · simp [h0, h1, Option.all]
      rcases h2 : DHT11_ReadByte pin fuel s5 with _ | ⟨b2, s6⟩
      · simp [h0, h1, h2, Option.all]
      rcases h3 : DHT11_ReadByte pin fuel s6 with _ | ⟨b3, s7⟩
      · simp [h0, h1, h2, h3, Option.all]
      rcases h4 : DHT11_ReadByte pin fuel s7 with _ | ⟨b4, s8⟩
      · simp [h0, h1, h2, h3, h4, Option.all]
      have hnt4 := readByte_keeps_no_toggle pin fuel h0 hntr
      have hnt5 := readByte_keeps_no_toggle pin fuel h1 hnt4
      have hnt6 := readByte_keeps_no_toggle pin fuel h2 hnt5
      have hnt7 := readByte_keeps_no_toggle pin fuel h3 hnt6
      have hnt8 := readByte_keeps_no_toggle pin fuel h4 hnt7
      have hf : hasEv Ev.toggleLED s8.evs = false := by
        cases hx : hasEv Ev.toggleLED s8.evs
        · rfl
        · exact absurd ((hasEv_iff _ _).mp hx) hnt8
      by_cases hsum : b4 = b0 + b1 + b2 + b3
      · simp [h0, h1, h2, h3, h4, Option.all, frameReport, hsum, mHALDelay]
      · simp [h0, h1, h2, h3, h4, Option.all, frameReport, hsum, mHALDelay,
          hasEv, List.any_append]
        rw [hasEv] at hf
        simp at hf
        exact hf
  · intro b0 b1 b2 b3 b4 s
    by_cases h : b4 = b0 + b1 + b2 + b3 <;> simp [frameReport, h]
